import Mathlib

/-
Shallow embedding of fileOrg.py (SpookyJoshua/Python-File-Filter) and proofs
about its polling-and-dispatch pipeline.  Line numbers in the comments refer
to src/fileOrg.py.
-/

namespace FileOrg

/-- The four digest algorithms named in fileOrg.py (lines 26-30, 71-78, 90-100). -/
inductive HashAlg
  | md5
  | sha1
  | sha224
  | sha256
deriving DecidableEq

/-- Python s.startswith(p) (fileOrg.py line 122), as a prefix test on character lists. -/
def startswith (s p : String) : Bool :=
  p.data.isPrefixOf s.data

/-- Python str.replace(pat, "") on character lists (fileOrg.py line 125): delete the
non-overlapping occurrences of pat, scanning left to right.  Fuel-based so that it
computes by kernel reduction; any fuel at least the length of the scanned list is
enough when pat is non-empty, and the program only passes patterns ending in a space. -/
def replaceDelAux (pat : List Char) : Nat → List Char → List Char
  | 0, s => s
  | _ + 1, [] => []
  | fuel + 1, c :: rest =>
    if pat.isPrefixOf (c :: rest) then
      replaceDelAux pat fuel (List.drop pat.length (c :: rest))
    else
      c :: replaceDelAux pat fuel rest

/-- Python file.replace(pat, "") (fileOrg.py line 125). -/
def pyReplaceDel (s pat : String) : String :=
  String.mk (replaceDelAux pat.data s.data.length s.data)

/-- The destination filename (fileOrg.py line 125): every occurrence of the prefix
followed by one space is deleted from the filename. -/
def destName (b file : String) : String :=
  pyReplaceDel file (b ++ " ")

/-- Does pat occur as a contiguous substring of s? -/
def containsSub : List Char → List Char → Bool
  | [], pat => pat.isEmpty
  | c :: rest, pat => pat.isPrefixOf (c :: rest) || containsSub rest pat

/-! Digest engine (fileOrg.py lines 71-105). -/

/-- The chunked read loop of hashFile (line 103): split the file contents into
chunks of n bytes.  Fuel-based; any fuel at least the length of the list is
enough when n is at least 1. -/
def chunksAux (n : Nat) : Nat → List Nat → List (List Nat)
  | 0, _ => []
  | _ + 1, [] => []
  | fuel + 1, c :: cs => List.take n (c :: cs) :: chunksAux n fuel (List.drop n (c :: cs))

/-- The sequence of chunks `iter(lambda: f.read(4096), b"")` yields (line 103). -/
def readChunks (n : Nat) (l : List Nat) : List (List Nat) :=
  chunksAux n l.length l

/-- Repeated h.update(chunk) (line 104): each chunk is absorbed into the digest
state, modelled as the byte sequence fed to the digest so far. -/
def absorb (st : List Nat) (chunks : List (List Nat)) : List Nat :=
  chunks.foldl (fun acc c => acc ++ c) st

/-- Algorithm selection inside hashFile (lines 90-100): the final else arm falls
back to MD5 for every unknown hashMethod value. -/
def selectAlg (hashCode : String) : HashAlg :=
  if hashCode = "MD5" then HashAlg.md5
  else if hashCode = "SHA-1" then HashAlg.sha1
  else if hashCode = "SHA-256" then HashAlg.sha256
  else if hashCode = "SHA-224" then HashAlg.sha224
  else HashAlg.md5

/-- The module-level hash object selection (lines 72-78): note there is no MD5 arm,
the default object is MD5.  hashFile never reads this object. -/
def moduleHashAlg (hashCode : String) : HashAlg :=
  if hashCode = "SHA-1" then HashAlg.sha1
  else if hashCode = "SHA-256" then HashAlg.sha256
  else if hashCode = "SHA-224" then HashAlg.sha224
  else HashAlg.md5

/-- hashFile (lines 81-105).  `hexdigest` abstracts the hashlib map from a digest
state (the byte sequence absorbed) to the hexadecimal string; it is a parameter of
the whole development because hashlib is an external library.  `hashState` models
the byte sequence absorbed by the module-level hash object of lines 72-78; the
function deliberately ignores it and builds a fresh empty digest state per call
(line 89).  `contents` holds the bytes of the file, none when the file cannot be
opened, in which case the call fails like the Python IOError. -/
def hashFile (hexdigest : HashAlg → List Nat → String) (hashCode : String)
    (hashState : List Nat) (contents : Option (List Nat)) : Except String String :=
  match contents with
  | none => Except.error ("IOError")
  | some bs =>
    Except.ok (hexdigest (selectAlg hashCode) (absorb [] (readChunks 4096 bs)))

/-! Filesystem model.  A regular file is identified by the pair
(directory, filename); names returned by os.listdir never contain a path
separator, so such a pair denotes exactly one path. -/

abbrev FS := List ((String × String) × List Nat)

def lookupFS : FS → String × String → Option (List Nat)
  | [], _ => none
  | (q, bs) :: rest, p => if q = p then some bs else lookupFS rest p

def eraseFS : FS → String × String → FS
  | [], _ => []
  | (q, bs) :: rest, p => if q = p then eraseFS rest p else (q, bs) :: eraseFS rest p

/-- Writing a file at p: any existing entry is replaced (the observed overwrite
behaviour of shutil.move onto an existing plain file). -/
def writeFS (fs : FS) (p : String × String) (bs : List Nat) : FS :=
  eraseFS fs p ++ [(p, bs)]

/-- Line 116: the regular files directly inside directory d, in filesystem order. -/
def listFiles (fs : FS) (d : String) : List String :=
  (fs.filter (fun e => decide (e.1.1 = d))).map (fun e => e.1.2)

/-! The in-memory hashStore (line 35) with Python dict insertion-order semantics. -/

/-- hashStore.update with one key (line 133): an existing key keeps its position
and receives the new value, a new key is appended at the end. -/
def dictInsert : List (String × String) → String → String → List (String × String)
  | [], k, v => [(k, v)]
  | (k0, v0) :: rest, k, v =>
    if k0 = k then (k, v) :: rest else (k0, v0) :: dictInsert rest k v

def dictLookup : List (String × String) → String → Option String
  | [], _ => none
  | (k0, v0) :: rest, k => if k0 = k then some v0 else dictLookup rest k

/-! The dispatcher (fileOrg.py lines 33-41, 107-165). -/

/-- The mutable state the dispatcher touches: the file tree, the set of existing
directories, the in-memory hashStore (line 35) and the persisted content of
fileHashes.json, none when that file does not exist. -/
structure St where
  fs : FS
  dirs : List String
  hashStore : List (String × String)
  ledgerFile : Option (List (String × String))
deriving DecidableEq

/-- The module-level values main() and hashFile() read (lines 33-41, 63-78).  They are
set once at process start and never refreshed inside the loop: the loop only refreshes
isRunning (lines 157-162).  `hexdigest` abstracts the hashlib digest-to-hex map and
`hashObj` is the absorbed state of the module-level hash object (lines 72-78). -/
structure Globals where
  currentPath : String
  getHashes : Bool
  hashCode : String
  hexdigest : HashAlg → List Nat → String
  hashObj : List Nat

/-- shutil.move(src, dest) (line 127) on plain files: fails when the source does not
exist (FileNotFoundError out of the rename/copy fallback); otherwise the source entry
is removed and the destination written, replacing any existing destination file. -/
def pyMove (fs : FS) (src dst : String × String) : Except String FS :=
  match lookupFS fs src with
  | none => Except.error ("FileNotFoundError")
  | some bs => Except.ok (writeFS (eraseFS fs src) dst bs)

/-- Lines 130-135: create fileHashes.json when absent, insert/overwrite the composite
key "<b> | <dn>" in the in-memory hashStore, then rewrite the whole file with the
serialized full mapping (the persisted content is modelled as the mapping itself,
JSON encoding being a thin wrapper). -/
def recordDigest (s : St) (b dn hex : String) : St :=
  { s with
    hashStore := dictInsert s.hashStore (b ++ " | " ++ dn) hex,
    ledgerFile := some (dictInsert s.hashStore (b ++ " | " ++ dn) hex) }

/-- The inner loop of main() (lines 120-135) for one listed file: try every registered
entry in order; on a startswith match move the file, and when hashing is enabled hash
the moved file at its destination and record the digest.  There is no break after a
match: the scan continues with the remaining entries.  A raised error carries the
state reached so far (moves already performed stay performed). -/
def processPrefixes (g : Globals) (file : String) : List String → St → Except (String × St) St
  | [], s => Except.ok s
  | b :: rest, s =>
    if startswith file b then
      match pyMove s.fs (g.currentPath, file) (b, destName b file) with
      | Except.error e => Except.error (e, s)
      | Except.ok fs2 =>
        if g.getHashes then
          match hashFile g.hexdigest g.hashCode g.hashObj (lookupFS fs2 (b, destName b file)) with
          | Except.error e => Except.error (e, { s with fs := fs2 })
          | Except.ok hex =>
            processPrefixes g file rest (recordDigest { s with fs := fs2 } b (destName b file) hex)
        else processPrefixes g file rest { s with fs := fs2 }
    else processPrefixes g file rest s

/-- The outer loop of main() (line 119) over the snapshot of listed files. -/
def processFiles (g : Globals) (registered : List String) :
    List String → St → Except (String × St) St
  | [], s => Except.ok s
  | f :: rest, s =>
    match processPrefixes g f registered s with
    | Except.error e => Except.error e
    | Except.ok s2 => processFiles g registered rest s2

/-- One call of main() (lines 107-135): list the regular files of the watch directory
once, then process each listed file in order. -/
def mainCycle (g : Globals) (registered : List String) (s : St) : Except (String × St) St :=
  processFiles g registered (listFiles s.fs g.currentPath) s

/-- The state a computation reached, whether it finished normally or raised. -/
def resultSt : Except (String × St) St → St
  | Except.ok s => s
  | Except.error e => e.2

/-- The settings section of config.ini (lines 46-54): four string-valued keys. -/
structure Config where
  isRunning : String
  getHashes : String
  hashMethod : String
  currentPathName : String
deriving DecidableEq

/-- The polling loop (lines 156-165).  Each iteration re-reads config.ini, modelled by
the next element of `schedule` (the content of the file at that read, so an external
edit is a change between consecutive elements), refreshes only the isRunning flag from
it, runs main() unconditionally, and loops again only while the flag is true.  An
exhausted schedule ends the observation. -/
def runLoop (g : Globals) (registered : List String) :
    List Config → St → Except (String × St) St
  | [], s => Except.ok s
  | c :: rest, s =>
    match mainCycle g registered s with
    | Except.error e => Except.error e
    | Except.ok s2 =>
      if c.isRunning = "true" then runLoop g registered rest s2 else Except.ok s2

/-- The persisted resources outside the watch tree, plus the dispatcher state. -/
structure ProgSt where
  configFile : Option Config
  pathsFile : Option (List String)
  st : St
deriving DecidableEq

/-- The defaults written to a fresh config.ini (lines 46-54). -/
def defaultConfig : Config :=
  { isRunning := "true", getHashes := "true", hashMethod := "MD5",
    currentPathName := "Images" }

/-- Lines 46-60: create config.ini with the defaults and filePaths.json with the
single placeholder entry when the respective file is absent. -/
def bootstrap (p : ProgSt) : ProgSt :=
  let p1 :=
    match p.configFile with
    | none => { p with configFile := some defaultConfig }
    | some _ => p
  match p1.pathsFile with
  | none => { p1 with pathsFile := some [("empty")] }
  | some _ => p1

/-- os.makedirs guarded by os.path.exists (lines 147-153). -/
def makedirsIfAbsent (s : St) (d : String) : St :=
  if s.dirs.contains d then s else { s with dirs := s.dirs ++ [d] }

/-- The whole process (lines 33-165): bootstrap absent resources, read the startup
configuration, and only when its isRunning value is exactly "true" load the registered
entries from filePaths.json, create their directories and the watch directory, and
enter the polling loop. -/
def runProgram (hexdigest : HashAlg → List Nat → String) (schedule : List Config)
    (p0 : ProgSt) : Except (String × St) ProgSt :=
  let p := bootstrap p0
  let cfg := p.configFile.getD defaultConfig
  if cfg.isRunning = "true" then
    let registered := p.pathsFile.getD []
    let s2 := makedirsIfAbsent (registered.foldl makedirsIfAbsent p.st) cfg.currentPathName
    match runLoop
        { currentPath := cfg.currentPathName,
          getHashes := decide (cfg.getHashes = "true"),
          hashCode := cfg.hashMethod,
          hexdigest := hexdigest,
          hashObj := [] } registered schedule s2 with
    | Except.error e => Except.error e
    | Except.ok s3 => Except.ok { p with st := s3 }
  else Except.ok p

/-! Lemmas about one iteration of the inner matching loop. -/

/-- The state after the body of one matching iteration (lines 122-135): the move,
and, when hashing is enabled, the digest of the moved bytes recorded under the key
built from the matched entry and the stripped name. -/
def stepState (g : Globals) (b file : String) (bs : List Nat) (s : St) : St :=
  if g.getHashes then
    recordDigest { s with fs := writeFS (eraseFS s.fs (g.currentPath, file)) (b, destName b file) bs }
      b (destName b file) (g.hexdigest (selectAlg g.hashCode) bs)
  else { s with fs := writeFS (eraseFS s.fs (g.currentPath, file)) (b, destName b file) bs }

/-! Concrete instances used to settle the claims. -/

def gC1 : Globals := { currentPath := "Images", getHashes := false, hashCode := "MD5", hexdigest := (fun _ _ => ""), hashObj := [] }

def sC1 : St := { fs := [(("Images", "xy data"), [1])], dirs := [], hashStore := [], ledgerFile := none }

def sC1out : St := { fs := [(("x", "xy data"), [1])], dirs := [], hashStore := [], ledgerFile := none }

def gC2 : Globals := { currentPath := "w", getHashes := false, hashCode := "MD5", hexdigest := (fun _ _ => ""), hashObj := [] }

def sC2 : St := { fs := [(("w", "p x"), [2])], dirs := [], hashStore := [], ledgerFile := none }

def cC2 : Config := { isRunning := "false", getHashes := "true", hashMethod := "MD5", currentPathName := "w" }

def cC2b : Config := { isRunning := "true", getHashes := "true", hashMethod := "MD5", currentPathName := "w" }

def sC2out : St := { fs := [(("p", "x"), [2])], dirs := [], hashStore := [], ledgerFile := none }

def gC3 : Globals := { currentPath := "w", getHashes := true, hashCode := "MD5", hexdigest := (fun _ _ => "H"), hashObj := [] }

def sC3 : St := { fs := [(("w", "p x"), [2])], dirs := [], hashStore := [], ledgerFile := none }

def cC3 : Config := { isRunning := "false", getHashes := "false", hashMethod := "SHA-1", currentPathName := "v" }

def sC3out : St := { fs := [(("p", "x"), [2])], dirs := [], hashStore := [("p | x", "H")], ledgerFile := some [("p | x", "H")] }

def schedC3a : List Config := [{ isRunning := "false", getHashes := "true", hashMethod := "MD5", currentPathName := "w" }]

def schedC3b : List Config := [{ isRunning := "false", getHashes := "false", hashMethod := "SHA-256", currentPathName := "elsewhere" }]

def gC4 : Globals := { currentPath := "w", getHashes := false, hashCode := "MD5", hexdigest := (fun _ _ => ""), hashObj := [] }

def sC4 : St := { fs := [(("w", "a a b"), [3])], dirs := [], hashStore := [], ledgerFile := none }

def sC4out : St := { fs := [(("a", "b"), [3])], dirs := [], hashStore := [], ledgerFile := none }

def gC4w : Globals := { currentPath := "Images", getHashes := true, hashCode := "MD5", hexdigest := (fun _ _ => "H"), hashObj := [] }

def sC4w : St := { fs := [(("Images", "foo bar.png"), [9])], dirs := [], hashStore := [], ledgerFile := none }

def sC5 : St := { fs := [], dirs := [], hashStore := [("a | b", "old")], ledgerFile := none }

def gC8 : Globals := { currentPath := "Images", getHashes := false, hashCode := "MD5", hexdigest := (fun _ _ => ""), hashObj := [] }

def sC8 : St := { fs := [(("Images", "prefixed.txt"), [7])], dirs := [], hashStore := [], ledgerFile := none }

def gC9 : Globals := { currentPath := "Images", getHashes := true, hashCode := "MD5", hexdigest := (fun _ _ => "H"), hashObj := [] }

def sC9 : St := { fs := [(("Images", "x"), [1]), (("Images", "Images x"), [2])], dirs := [], hashStore := [], ledgerFile := none }

def sC9out : St := { fs := [(("Images", "x"), [2])], dirs := [], hashStore := [("Images | x", "H")], ledgerFile := some [("Images | x", "H")] }

def regC9w : List String := ["docs"]

def schedC9w : List Config := [{ isRunning := "true", getHashes := "true", hashMethod := "MD5", currentPathName := "Images" }, { isRunning := "false", getHashes := "true", hashMethod := "MD5", currentPathName := "Images" }]

def sC9w : St := { fs := [(("Images", "x"), [1]), (("Images", "docs y"), [2])], dirs := [], hashStore := [], ledgerFile := none }

def cC10 : Config := { isRunning := "True", getHashes := "true", hashMethod := "MD5", currentPathName := "Images" }

def pC10 : ProgSt := { configFile := some cC10, pathsFile := none, st := { fs := [(("Images", "p x"), [1])], dirs := [], hashStore := [], ledgerFile := none } }

lemma isPrefixOf_append_self (l t : List Char) : l.isPrefixOf (l ++ t) = true := by
  induction l with
  | nil => simp
  | cons c cs ih => simp [List.isPrefixOf_cons₂, ih]

lemma not_isPrefixOf_of_containsSub_false {s pat : List Char} (c : Char) (rest : List Char)
    (hs : s = c :: rest) (h : containsSub s pat = false) :
    pat.isPrefixOf s = false := by
  subst hs
  simp only [containsSub, Bool.or_eq_false_iff] at h
  exact h.1

lemma containsSub_tail_false {s pat : List Char} (c : Char) (rest : List Char)
    (hs : s = c :: rest) (h : containsSub s pat = false) :
    containsSub rest pat = false := by
  subst hs
  simp only [containsSub, Bool.or_eq_false_iff] at h
  exact h.2

/-- When pat occurs nowhere in s, deletion leaves s unchanged, for any fuel. -/
lemma replaceDelAux_no_occur (pat : List Char) :
    ∀ (fuel : Nat) (s : List Char), containsSub s pat = false →
      replaceDelAux pat fuel s = s := by
  intro fuel
  induction fuel with
  | zero => intro s _; rfl
  | succ n ih =>
    intro s h
    cases s with
    | nil => rfl
    | cons c rest =>
      rw [replaceDelAux, if_neg]
      · rw [ih rest (containsSub_tail_false c rest rfl h)]
      · rw [not_isPrefixOf_of_containsSub_false c rest rfl h]
        exact Bool.false_ne_true

/-- A leading occurrence of a non-empty pat is deleted and scanning continues after it. -/
lemma replaceDelAux_leading (pat t : List Char) (hpat : pat ≠ []) (fuel : Nat) :
    replaceDelAux pat (fuel + 1) (pat ++ t) = replaceDelAux pat fuel t := by
  cases pat with
  | nil => exact absurd rfl hpat
  | cons c cs =>
    show replaceDelAux (c :: cs) (fuel + 1) (c :: (cs ++ t)) = _
    rw [replaceDelAux, if_pos]
    · have hd : List.drop (c :: cs).length (c :: (cs ++ t)) = t := by
        show List.drop (cs.length + 1) (c :: (cs ++ t)) = t
        rw [List.drop_succ_cons, List.drop_left]
      rw [hd]
    · have : (c :: cs).isPrefixOf (c :: (cs ++ t)) = true := by
        rw [List.isPrefixOf_cons₂]
        simp [isPrefixOf_append_self]
      rw [this]

lemma string_data_append (a b : String) : (a ++ b).data = a.data ++ b.data := rfl

lemma destName_no_occur (b file : String)
    (h : containsSub file.data (b ++ " ").data = false) :
    destName b file = file := by
  unfold destName pyReplaceDel
  rw [replaceDelAux_no_occur _ _ _ h]

lemma space_pat_ne_nil (b : String) : (b ++ " ").data ≠ [] := by
  rw [string_data_append]
  intro h
  rcases List.append_eq_nil.mp h with ⟨_, h2⟩
  exact absurd h2 (by decide)

/-- Deleting all occurrences of the pattern from a string that begins with the pattern
and whose remainder avoids it yields exactly the remainder. -/
lemma destName_split (b tail : String)
    (h : containsSub tail.data (b ++ " ").data = false) :
    destName b (b ++ " " ++ tail) = tail := by
  unfold destName pyReplaceDel
  have hdata : (b ++ " " ++ tail).data = (b ++ " ").data ++ tail.data := by
    rw [string_data_append]
  rw [hdata]
  have hne := space_pat_ne_nil b
  have hlen : ((b ++ " ").data ++ tail.data).length
      = ((b ++ " ").data.length - 1 + tail.data.length) + 1 := by
    rw [List.length_append]
    cases hp : (b ++ " ").data with
    | nil => exact absurd hp hne
    | cons c cs => simp [Nat.succ_add]
  rw [hlen, replaceDelAux_leading _ _ hne, replaceDelAux_no_occur _ _ _ h]

lemma startswith_of_leading (b tail : String) :
    startswith (b ++ tail) b = true := by
  unfold startswith
  rw [string_data_append]
  exact isPrefixOf_append_self b.data tail.data

lemma absorb_chunksAux (n : Nat) (hn : 1 ≤ n) :
    ∀ (fuel : Nat) (l acc : List Nat), l.length ≤ fuel →
      absorb acc (chunksAux n fuel l) = acc ++ l := by
  intro fuel
  induction fuel with
  | zero =>
    intro l acc hl
    have : l = [] := List.length_eq_zero.mp (Nat.le_zero.mp hl)
    subst this
    simp [chunksAux, absorb]
  | succ m ih =>
    intro l acc hl
    cases l with
    | nil => simp [chunksAux, absorb]
    | cons c cs =>
      rw [chunksAux]
      show absorb (acc ++ List.take n (c :: cs)) (chunksAux n m (List.drop n (c :: cs)))
        = acc ++ (c :: cs)
      rw [ih (List.drop n (c :: cs)) (acc ++ List.take n (c :: cs))
          (by
            rw [List.length_drop]
            have h1 : (c :: cs).length ≤ m + 1 := hl
            have h2 : (c :: cs).length = cs.length + 1 := rfl
            omega)]
      rw [List.append_assoc, List.take_append_drop]

lemma absorb_readChunks (n : Nat) (hn : 1 ≤ n) (l : List Nat) :
    absorb [] (readChunks n l) = l := by
  have := absorb_chunksAux n hn l.length l [] (Nat.le_refl _)
  rw [readChunks, this]
  simp

lemma hashFile_some (hexdigest : HashAlg → List Nat → String) (hashCode : String)
    (hashState : List Nat) (bs : List Nat) :
    hashFile hexdigest hashCode hashState (some bs)
      = Except.ok (hexdigest (selectAlg hashCode) bs) := by
  show Except.ok (hexdigest (selectAlg hashCode) (absorb [] (readChunks 4096 bs))) = _
  rw [absorb_readChunks 4096 (by omega) bs]

lemma lookupFS_nil (p : String × String) : lookupFS [] p = none := rfl

lemma lookupFS_cons (q : String × String) (bs : List Nat) (rest : FS) (p : String × String) :
    lookupFS ((q, bs) :: rest) p = if q = p then some bs else lookupFS rest p := rfl

lemma eraseFS_nil (p : String × String) : eraseFS [] p = [] := rfl

lemma eraseFS_cons (q : String × String) (bs : List Nat) (rest : FS) (p : String × String) :
    eraseFS ((q, bs) :: rest) p
      = if q = p then eraseFS rest p else (q, bs) :: eraseFS rest p := rfl

lemma lookupFS_writeFS_self (fs : FS) (p : String × String) (bs : List Nat) :
    lookupFS (writeFS fs p bs) p = some bs := by
  unfold writeFS
  induction fs with
  | nil =>
    show lookupFS [(p, bs)] p = some bs
    rw [lookupFS_cons, if_pos rfl]
  | cons e rest ih =>
    obtain ⟨q, b0⟩ := e
    by_cases hq : q = p
    · rw [eraseFS_cons, if_pos hq]
      exact ih
    · rw [eraseFS_cons, if_neg hq, List.cons_append, lookupFS_cons, if_neg hq]
      exact ih

lemma lookupFS_writeFS_other (fs : FS) (p q : String × String) (bs : List Nat)
    (h : q ≠ p) : lookupFS (writeFS fs p bs) q = lookupFS fs q := by
  unfold writeFS
  induction fs with
  | nil =>
    show lookupFS [(p, bs)] q = lookupFS [] q
    rw [lookupFS_cons, if_neg (fun hpq => h hpq.symm)]
  | cons e rest ih =>
    obtain ⟨q0, b0⟩ := e
    by_cases hq : q0 = p
    · have hq0q : q0 ≠ q := by rw [hq]; exact fun hpq => h hpq.symm
      rw [eraseFS_cons, if_pos hq, lookupFS_cons, if_neg hq0q]
      exact ih
    · rw [eraseFS_cons, if_neg hq, List.cons_append, lookupFS_cons, lookupFS_cons]
      by_cases hq2 : q0 = q
      · rw [if_pos hq2, if_pos hq2]
      · rw [if_neg hq2, if_neg hq2, ih]

lemma lookupFS_eraseFS_other (fs : FS) (p q : String × String) (h : q ≠ p) :
    lookupFS (eraseFS fs p) q = lookupFS fs q := by
  induction fs with
  | nil => rfl
  | cons e rest ih =>
    obtain ⟨q0, b0⟩ := e
    by_cases hq : q0 = p
    · have hq0q : q0 ≠ q := by rw [hq]; exact fun hpq => h hpq.symm
      rw [eraseFS_cons, if_pos hq, lookupFS_cons, if_neg hq0q]
      exact ih
    · rw [eraseFS_cons, if_neg hq, lookupFS_cons, lookupFS_cons]
      by_cases hq2 : q0 = q
      · rw [if_pos hq2, if_pos hq2]
      · rw [if_neg hq2, if_neg hq2, ih]

lemma lookupFS_eraseFS_self (fs : FS) (p : String × String) :
    lookupFS (eraseFS fs p) p = none := by
  induction fs with
  | nil => rfl
  | cons e rest ih =>
    obtain ⟨q, b0⟩ := e
    by_cases hq : q = p
    · rw [eraseFS_cons, if_pos hq]; exact ih
    · rw [eraseFS_cons, if_neg hq, lookupFS_cons, if_neg hq]; exact ih

lemma dictLookup_cons (k0 v0 : String) (rest : List (String × String)) (k : String) :
    dictLookup ((k0, v0) :: rest) k = if k0 = k then some v0 else dictLookup rest k := rfl

lemma dictInsert_cons (k0 v0 : String) (rest : List (String × String)) (k v : String) :
    dictInsert ((k0, v0) :: rest) k v
      = if k0 = k then (k, v) :: rest else (k0, v0) :: dictInsert rest k v := rfl

lemma dictLookup_dictInsert_self (m : List (String × String)) (k v : String) :
    dictLookup (dictInsert m k v) k = some v := by
  induction m with
  | nil => show dictLookup [(k, v)] k = some v; rw [dictLookup_cons, if_pos rfl]
  | cons e rest ih =>
    obtain ⟨k0, v0⟩ := e
    by_cases hk : k0 = k
    · rw [dictInsert_cons, if_pos hk, dictLookup_cons, if_pos rfl]
    · rw [dictInsert_cons, if_neg hk, dictLookup_cons, if_neg hk]
      exact ih

lemma dictLookup_dictInsert_other (m : List (String × String)) (k v k2 : String)
    (h : k2 ≠ k) : dictLookup (dictInsert m k v) k2 = dictLookup m k2 := by
  induction m with
  | nil =>
    show dictLookup [(k, v)] k2 = none
    rw [dictLookup_cons, if_neg (fun hk => h hk.symm)]
    rfl
  | cons e rest ih =>
    obtain ⟨k0, v0⟩ := e
    by_cases hk : k0 = k
    · have hk02 : k0 ≠ k2 := by rw [hk]; exact fun hk0 => h hk0.symm
      rw [dictInsert_cons, if_pos hk, dictLookup_cons, if_neg (fun hk0 => h hk0.symm),
        dictLookup_cons, if_neg hk02]
    · rw [dictInsert_cons, if_neg hk, dictLookup_cons, dictLookup_cons]
      by_cases hk2 : k0 = k2
      · rw [if_pos hk2, if_pos hk2]
      · rw [if_neg hk2, if_neg hk2, ih]

lemma mem_keys_dictInsert (m : List (String × String)) (k v k2 : String)
    (h : k2 ∈ (dictInsert m k v).map Prod.fst) :
    k2 ∈ m.map Prod.fst ∨ k2 = k := by
  induction m with
  | nil =>
    have : k2 ∈ [k] := h
    exact Or.inr (List.mem_singleton.mp this)
  | cons e rest ih =>
    obtain ⟨k0, v0⟩ := e
    by_cases hk : k0 = k
    · rw [dictInsert_cons, if_pos hk, List.map_cons] at h
      rcases List.mem_cons.mp h with h2 | h2
      · exact Or.inr h2
      · exact Or.inl (List.mem_cons.mpr (Or.inr h2))
    · rw [dictInsert_cons, if_neg hk, List.map_cons] at h
      rcases List.mem_cons.mp h with h2 | h2
      · exact Or.inl (List.mem_cons.mpr (Or.inl h2))
      · rcases ih h2 with h3 | h3
        · exact Or.inl (List.mem_cons.mpr (Or.inr h3))
        · exact Or.inr h3

lemma nodup_keys_dictInsert (m : List (String × String)) (k v : String)
    (h : (m.map Prod.fst).Nodup) : ((dictInsert m k v).map Prod.fst).Nodup := by
  induction m with
  | nil => exact List.nodup_singleton k
  | cons e rest ih =>
    obtain ⟨k0, v0⟩ := e
    rw [List.map_cons, List.nodup_cons] at h
    by_cases hk : k0 = k
    · rw [dictInsert_cons, if_pos hk, List.map_cons, List.nodup_cons]
      refine ⟨fun hmem => h.1 ?_, h.2⟩
      rw [hk]
      exact hmem
    · rw [dictInsert_cons, if_neg hk, List.map_cons, List.nodup_cons]
      refine ⟨fun hmem => ?_, ih h.2⟩
      rcases mem_keys_dictInsert rest k v k0 hmem with h2 | h2
      · exact h.1 h2
      · exact hk h2

lemma stepState_fs (g : Globals) (b file : String) (bs : List Nat) (s : St) :
    (stepState g b file bs s).fs
      = writeFS (eraseFS s.fs (g.currentPath, file)) (b, destName b file) bs := by
  unfold stepState
  cases g.getHashes <;> rfl

lemma processPrefixes_cons_no (g : Globals) (file b : String) (rest : List String)
    (s : St) (hb : startswith file b = false) :
    processPrefixes g file (b :: rest) s = processPrefixes g file rest s := by
  rw [processPrefixes, hb]
  rfl

lemma processPrefixes_cons_match (g : Globals) (file b : String) (rest : List String)
    (s : St) (bs : List Nat)
    (hb : startswith file b = true)
    (hsrc : lookupFS s.fs (g.currentPath, file) = some bs) :
    processPrefixes g file (b :: rest) s
      = processPrefixes g file rest (stepState g b file bs s) := by
  have hmv : pyMove s.fs (g.currentPath, file) (b, destName b file)
      = Except.ok (writeFS (eraseFS s.fs (g.currentPath, file)) (b, destName b file) bs) := by
    unfold pyMove
    rw [hsrc]
  have hhash : hashFile g.hexdigest g.hashCode g.hashObj
      (lookupFS (writeFS (eraseFS s.fs (g.currentPath, file)) (b, destName b file) bs)
        (b, destName b file))
      = Except.ok (g.hexdigest (selectAlg g.hashCode) bs) := by
    rw [lookupFS_writeFS_self, hashFile_some]
  rw [processPrefixes, hb]
  simp only [hmv, hhash]
  unfold stepState
  cases hg : g.getHashes
  · rfl
  · rfl

lemma processPrefixes_cons_missing (g : Globals) (file b : String) (rest : List String)
    (s : St)
    (hb : startswith file b = true)
    (hsrc : lookupFS s.fs (g.currentPath, file) = none) :
    processPrefixes g file (b :: rest) s = Except.error (("FileNotFoundError"), s) := by
  have hmv : pyMove s.fs (g.currentPath, file) (b, destName b file)
      = Except.error ("FileNotFoundError") := by
    unfold pyMove
    rw [hsrc]
  rw [processPrefixes, hb]
  simp only [hmv]
  exact if_pos trivial

/-- When no registered entry matches the filename, the scan is a no-op. -/
lemma processPrefixes_no_match (g : Globals) (file : String) (ps : List String) (s : St)
    (h : ∀ b ∈ ps, startswith file b = false) :
    processPrefixes g file ps s = Except.ok s := by
  induction ps with
  | nil => rfl
  | cons b rest ih =>
    rw [processPrefixes_cons_no g file b rest s (h b (List.mem_cons_self b rest))]
    exact ih (fun q hq => h q (List.mem_cons_of_mem b hq))

/-- Entries before the first match are skipped without effect. -/
lemma processPrefixes_skip (g : Globals) (file : String) (pre ps : List String) (s : St)
    (h : ∀ b ∈ pre, startswith file b = false) :
    processPrefixes g file (pre ++ ps) s = processPrefixes g file ps s := by
  induction pre with
  | nil => rfl
  | cons b rest ih =>
    rw [List.cons_append,
      processPrefixes_cons_no g file b (rest ++ ps) s (h b (List.mem_cons_self b rest))]
    exact ih (fun q hq => h q (List.mem_cons_of_mem b hq))

/-! Frame lemmas: processing never touches the watch-directory entry of a file that
matches no registered entry, provided no registered entry names the watch directory
itself (a registered entry equal to the watch directory would make moves write back
into the watch directory). -/

lemma processPrefixes_preserves (g : Globals) (f0 file : String) :
    ∀ (ps : List String) (s : St),
      (∀ b ∈ ps, b ≠ g.currentPath) →
      (file = f0 → ∀ b ∈ ps, startswith file b = false) →
      lookupFS (resultSt (processPrefixes g file ps s)).fs (g.currentPath, f0)
        = lookupFS s.fs (g.currentPath, f0) := by
  intro ps
  induction ps with
  | nil => intro s _ _; rfl
  | cons b rest ih =>
    intro s hcp hm
    by_cases hf : file = f0
    · rw [processPrefixes_no_match g file (b :: rest) s (hm hf)]
      rfl
    · cases hb : startswith file b with
      | false =>
        rw [processPrefixes_cons_no g file b rest s hb]
        exact ih s (fun q hq => hcp q (List.mem_cons_of_mem b hq))
          (fun hf0 => absurd hf0 hf)
      | true =>
        cases hsrc : lookupFS s.fs (g.currentPath, file) with
        | none =>
          rw [processPrefixes_cons_missing g file b rest s hb hsrc]
          rfl
        | some bs =>
          rw [processPrefixes_cons_match g file b rest s bs hb hsrc]
          rw [ih (stepState g b file bs s) (fun q hq => hcp q (List.mem_cons_of_mem b hq))
            (fun hf0 => absurd hf0 hf)]
          rw [stepState_fs]
          have hdst : (g.currentPath, f0) ≠ (b, destName b file) := by
            intro hcontra
            exact hcp b (List.mem_cons_self b rest) (congrArg Prod.fst hcontra).symm
          have hsrcne : (g.currentPath, f0) ≠ (g.currentPath, file) := by
            intro hcontra
            exact hf (congrArg Prod.snd hcontra).symm
          rw [lookupFS_writeFS_other _ _ _ _ hdst, lookupFS_eraseFS_other _ _ _ hsrcne]

lemma processFiles_preserves (g : Globals) (f0 : String) (ps : List String)
    (hcp : ∀ b ∈ ps, b ≠ g.currentPath)
    (hm : ∀ b ∈ ps, startswith f0 b = false) :
    ∀ (files : List String) (s : St),
      lookupFS (resultSt (processFiles g ps files s)).fs (g.currentPath, f0)
        = lookupFS s.fs (g.currentPath, f0) := by
  intro files
  induction files with
  | nil => intro s; rfl
  | cons f rest ih =>
    intro s
    have hp := processPrefixes_preserves g f0 f ps s hcp
      (fun hf b hb => by rw [hf]; exact hm b hb)
    cases hE : processPrefixes g f ps s with
    | error e =>
      rw [processFiles]
      simp only [hE]
      rw [hE] at hp
      exact hp
    | ok s2 =>
      rw [processFiles]
      simp only [hE]
      rw [ih s2]
      rw [hE] at hp
      exact hp

lemma runLoop_preserves (g : Globals) (f0 : String) (ps : List String)
    (hcp : ∀ b ∈ ps, b ≠ g.currentPath)
    (hm : ∀ b ∈ ps, startswith f0 b = false) :
    ∀ (schedule : List Config) (s : St),
      lookupFS (resultSt (runLoop g ps schedule s)).fs (g.currentPath, f0)
        = lookupFS s.fs (g.currentPath, f0) := by
  intro schedule
  induction schedule with
  | nil => intro s; rfl
  | cons c rest ih =>
    intro s
    have hp := processFiles_preserves g f0 ps hcp hm (listFiles s.fs g.currentPath) s
    rw [show processFiles g ps (listFiles s.fs g.currentPath) s = mainCycle g ps s from rfl] at hp
    cases hE : mainCycle g ps s with
    | error e =>
      rw [runLoop]
      simp only [hE]
      rw [hE] at hp
      exact hp
    | ok s2 =>
      rw [runLoop]
      simp only [hE]
      rw [hE] at hp
      by_cases hr : c.isRunning = "true"
      · rw [if_pos hr, ih s2]
        exact hp
      · rw [if_neg hr]
        exact hp

/-- C1: the claim says that once an entry matches, no subsequent entry is ever tested
against that file in that cycle.  The code has no break after a match, so subsequent
entries are still tested; when a second entry also matches the filename, the code
attempts a second move of the already-moved source and the cycle dies with
FileNotFoundError.  Here both registered entries of the registry ["x", "xy"] match
the listed file "xy data": the first match moves the file into directory "x" (the
carried state shows the completed move), then the second entry is tested, matches,
and the cycle raises instead of succeeding with the single move the claim predicts. -/
theorem C1_code_bug_eval :
    mainCycle gC1 ["x", "xy"] sC1 = Except.error (("FileNotFoundError"), sC1out)
      ∧ startswith ("xy data") ("x") = true
      ∧ startswith ("xy data") ("xy") = true :=
  ⟨rfl, rfl, rfl⟩

/-- C2: counterexample.  The claim says a polling cycle whose reloaded configuration
reports running false performs no directory listing, no move and no digest recording.
In the code the loop body calls main() unconditionally after refreshing the flag, so
the cycle with isRunning "false" still moves the matching file "p x" out of the watch
directory; only afterwards does the loop exit. -/
theorem C2_counterexample :
    runLoop gC2 ["p"] [cC2] sC2 = Except.ok sC2out
      ∧ cC2.isRunning ≠ ("true")
      ∧ lookupFS sC2out.fs (("w"), ("p x")) = none
      ∧ lookupFS sC2out.fs (("p"), ("x")) = some [2] :=
  ⟨rfl, by decide, rfl, rfl⟩

/-- C2 amended: a cycle whose reloaded configuration reports running false still
executes the full dispatch of that cycle (listing, moves, digests); the loop then
exits, so no later cycle occurs: the run over the whole remaining schedule equals the
run over just that one cycle. -/
theorem C2_amended (g : Globals) (ps : List String) (c : Config) (rest : List Config)
    (s : St) (h : c.isRunning ≠ ("true")) :
    runLoop g ps (c :: rest) s = runLoop g ps [c] s := by
  cases hE : mainCycle g ps s with
  | error e =>
    rw [runLoop, runLoop]
    simp only [hE]
  | ok s2 =>
    rw [runLoop, runLoop]
    simp only [hE]
    rw [if_neg h, if_neg h]

theorem C2_amended_witness :
    cC2.isRunning ≠ ("true")
      ∧ runLoop gC2 ["p"] (cC2 :: [cC2b]) sC2 = runLoop gC2 ["p"] [cC2] sC2 :=
  ⟨by decide, C2_amended gC2 ["p"] cC2 [cC2b] sC2 (by decide)⟩

/-- C3: counterexample.  The claim says all four configuration values used during an
iteration equal the values persisted at the top of that iteration.  In the code only
isRunning is refreshed inside the loop; the watch directory, the digest flag and the
algorithm keep their process-start values.  Here the configuration persisted at the
top of the single iteration says getHashes "false" and watch directory "v" (which is
empty), yet the iteration lists the startup directory "w", moves "p x" out of it and
records a digest. -/
theorem C3_counterexample :
    runLoop gC3 ["p"] [cC3] sC3 = Except.ok sC3out
      ∧ cC3.getHashes = ("false")
      ∧ cC3.currentPathName = ("v")
      ∧ listFiles sC3.fs cC3.currentPathName = []
      ∧ dictLookup sC3out.hashStore ("p | x") = some ("H")
      ∧ lookupFS sC3out.fs (("w"), ("p x")) = none :=
  ⟨rfl, rfl, rfl, rfl, rfl, rfl⟩

/-- C3 amended: only the running flag is re-read each iteration; the digest flag, the
algorithm and the watch directory used by every iteration are the values loaded at
process start, so edits to those keys never take effect.  Formally the loop result
depends on the per-cycle configurations only through their isRunning test: two
schedules that agree on that test produce identical runs. -/
theorem C3_amended (g : Globals) (ps : List String) :
    ∀ (sched1 sched2 : List Config) (s : St),
      sched1.map (fun c => decide (c.isRunning = "true"))
        = sched2.map (fun c => decide (c.isRunning = "true")) →
      runLoop g ps sched1 s = runLoop g ps sched2 s := by
  intro sched1
  induction sched1 with
  | nil =>
    intro sched2 s h
    cases sched2 with
    | nil => rfl
    | cons c2 r2 => exact absurd h (by simp)
  | cons c1 r1 ih =>
    intro sched2 s h
    cases sched2 with
    | nil => exact absurd h (by simp)
    | cons c2 r2 =>
      rw [List.map_cons, List.map_cons] at h
      injection h with h1 h2
      cases hE : mainCycle g ps s with
      | error e =>
        rw [runLoop, runLoop]
        simp only [hE]
      | ok s2 =>
        rw [runLoop, runLoop]
        simp only [hE]
        rw [decide_eq_decide] at h1
        by_cases hr : c1.isRunning = "true"
        · rw [if_pos hr, if_pos (h1.mp hr), ih r2 s2 h2]
        · rw [if_neg hr, if_neg (fun hr2 => hr (h1.mpr hr2))]

theorem C3_amended_witness :
    schedC3a.map (fun c => decide (c.isRunning = "true"))
        = schedC3b.map (fun c => decide (c.isRunning = "true"))
      ∧ runLoop gC3 ["p"] schedC3a sC3 = runLoop gC3 ["p"] schedC3b sC3 :=
  ⟨by decide, C3_amended gC3 ["p"] schedC3a schedC3b sC3 (by decide)⟩

/-- C4: counterexample.  The claim says moving a file named "P suffix" always yields a
destination file named exactly "suffix" inside directory P, for every suffix.  The
code deletes every occurrence of the pattern (prefix followed by a space) from the
filename, not only the leading one: with registered entry "a" and file "a a b"
(prefix "a", suffix "a b") the moved file is named "b", not "a b". -/
theorem C4_counterexample :
    processPrefixes gC4 ("a a b") ["a"] sC4 = Except.ok sC4out
      ∧ destName ("a") ("a a b") = ("b")
      ∧ lookupFS sC4out.fs (("a"), ("a b")) = none
      ∧ lookupFS sC4out.fs (("a"), ("b")) = some [3] :=
  ⟨rfl, rfl, rfl, rfl⟩

/-- C4 amended: moving a file named "P suffix" yields a destination file inside
directory P named with every occurrence of the pattern (P followed by a space)
deleted; this equals "suffix" exactly when the suffix itself contains no occurrence
of the pattern.  Under that restriction the original claim holds: the file reappears
under (P, suffix) and the watch entry is gone. -/
theorem C4_amended (g : Globals) (b tl : String) (s : St) (bs : List Nat)
    (hocc : containsSub tl.data (b ++ " ").data = false)
    (hsrc : lookupFS s.fs (g.currentPath, b ++ " " ++ tl) = some bs) :
    ∃ s2, processPrefixes g (b ++ " " ++ tl) [b] s = Except.ok s2
      ∧ lookupFS s2.fs (b, tl) = some bs
      ∧ lookupFS s2.fs (g.currentPath, b ++ " " ++ tl) = none := by
  have hdata : (b ++ " " ++ tl).data = b.data ++ ([' '] ++ tl.data) := by
    rw [string_data_append, string_data_append, List.append_assoc]
  have hsw : startswith (b ++ " " ++ tl) b = true := by
    unfold startswith
    rw [hdata]
    exact isPrefixOf_append_self b.data ([' '] ++ tl.data)
  have hne : tl ≠ b ++ " " ++ tl := by
    intro hcontra
    have h1 : (b ++ " " ++ tl).data.length = (b ++ " ").data.length + tl.data.length := by
      rw [string_data_append, List.length_append]
    have h2 : tl.data.length = (b ++ " " ++ tl).data.length :=
      congrArg (fun t => t.data.length) hcontra
    have hpos : 0 < (b ++ " ").data.length := List.length_pos.mpr (space_pat_ne_nil b)
    omega
  have hdst : (g.currentPath, b ++ " " ++ tl) ≠ (b, tl) := by
    intro hcontra
    exact hne (congrArg Prod.snd hcontra).symm
  refine ⟨stepState g b (b ++ " " ++ tl) bs s, ?_, ?_, ?_⟩
  · rw [processPrefixes_cons_match g (b ++ " " ++ tl) b [] s bs hsw hsrc]
    rfl
  · rw [stepState_fs, destName_split b tl hocc, lookupFS_writeFS_self]
  · rw [stepState_fs, destName_split b tl hocc,
      lookupFS_writeFS_other _ _ _ _ hdst, lookupFS_eraseFS_self]

theorem C4_amended_witness :
    containsSub ("bar.png").data (("foo") ++ " ").data = false
      ∧ lookupFS sC4w.fs (gC4w.currentPath, ("foo") ++ " " ++ ("bar.png")) = some [9]
      ∧ (∃ s2, processPrefixes gC4w (("foo") ++ " " ++ ("bar.png")) [("foo")] sC4w
            = Except.ok s2
          ∧ lookupFS s2.fs (("foo"), ("bar.png")) = some [9]
          ∧ lookupFS s2.fs (gC4w.currentPath, ("foo") ++ " " ++ ("bar.png")) = none) :=
  ⟨by decide, by decide, C4_amended gC4w ("foo") ("bar.png") sC4w [9] (by decide) (by decide)⟩

/-- C5: recording a digest inserts or overwrites the single composite key built from
the destination and the final filename in the in-memory mapping, rewrites the
persisted ledger to exactly the full in-memory mapping, changes no other key,
preserves key uniqueness, and a later record with the same destination and name
silently replaces the earlier value. -/
theorem C5_record (s : St) (b dn hex : String) :
    dictLookup (recordDigest s b dn hex).hashStore (b ++ " | " ++ dn) = some hex
      ∧ (recordDigest s b dn hex).ledgerFile = some (recordDigest s b dn hex).hashStore
      ∧ (∀ k, k ≠ b ++ " | " ++ dn →
          dictLookup (recordDigest s b dn hex).hashStore k = dictLookup s.hashStore k)
      ∧ ((s.hashStore.map Prod.fst).Nodup →
          ((recordDigest s b dn hex).hashStore.map Prod.fst).Nodup)
      ∧ (∀ hex2, dictLookup (recordDigest (recordDigest s b dn hex) b dn hex2).hashStore
          (b ++ " | " ++ dn) = some hex2) := by
  refine ⟨dictLookup_dictInsert_self _ _ _, rfl, ?_, ?_, ?_⟩
  · intro k hk
    exact dictLookup_dictInsert_other s.hashStore (b ++ " | " ++ dn) hex k hk
  · intro hnd
    exact nodup_keys_dictInsert s.hashStore (b ++ " | " ++ dn) hex hnd
  · intro hex2
    exact dictLookup_dictInsert_self _ _ _

theorem C5_record_witness :
    dictLookup (recordDigest sC5 ("p") ("q.png") ("h1")).hashStore ("p | q.png") = some ("h1")
      ∧ (recordDigest sC5 ("p") ("q.png") ("h1")).ledgerFile
          = some (recordDigest sC5 ("p") ("q.png") ("h1")).hashStore
      ∧ dictLookup (recordDigest sC5 ("p") ("q.png") ("h1")).hashStore ("a | b") = some ("old")
      ∧ ((recordDigest sC5 ("p") ("q.png") ("h1")).hashStore.map Prod.fst).Nodup
      ∧ dictLookup (recordDigest (recordDigest sC5 ("p") ("q.png") ("h1")) ("p") ("q.png")
          ("h2")).hashStore ("p | q.png") = some ("h2") := by
  have h := C5_record sC5 ("p") ("q.png") ("h1")
  refine ⟨h.1, h.2.1, ?_, ?_, ?_⟩
  · exact (h.2.2.1 ("a | b") (by decide)).trans (by decide)
  · exact h.2.2.2.1 (by decide)
  · exact h.2.2.2.2 ("h2")

/-- C6: for every configured algorithm value outside the four recognized names, the
digest routine does not fail on account of the algorithm: the final else arm selects
MD5, so it returns the MD5 digest of the bytes of the file, identical to what the MD5
configuration would return. -/
theorem C6_fallback (hexdigest : HashAlg → List Nat → String) (code : String)
    (hst : List Nat) (bs : List Nat)
    (h1 : code ≠ ("MD5")) (h2 : code ≠ ("SHA-1"))
    (h3 : code ≠ ("SHA-256")) (h4 : code ≠ ("SHA-224")) :
    hashFile hexdigest code hst (some bs) = Except.ok (hexdigest HashAlg.md5 bs)
      ∧ hashFile hexdigest code hst (some bs) = hashFile hexdigest ("MD5") hst (some bs) := by
  have hsel : selectAlg code = HashAlg.md5 := by
    unfold selectAlg
    rw [if_neg h1, if_neg h2, if_neg h3, if_neg h4]
  constructor
  · rw [hashFile_some, hsel]
  · rw [hashFile_some, hashFile_some, hsel]
    rfl

theorem C6_fallback_witness :
    (("sha512") ≠ ("MD5"))
      ∧ (hashFile (fun _ _ => "d") ("sha512") [] (some [1, 2]) = Except.ok ("d")
          ∧ hashFile (fun _ _ => "d") ("sha512") [] (some [1, 2])
              = hashFile (fun _ _ => "d") ("MD5") [] (some [1, 2])) :=
  ⟨by decide,
    C6_fallback (fun _ _ => "d") ("sha512") [] [1, 2]
      (by decide) (by decide) (by decide) (by decide)⟩

/-- C7: the digest engine is deterministic and uses a fresh digest state per call.
The result of hashFile is independent of the absorbed state of the module-level hash
object (two calls that differ only in that state agree), and on readable contents it
equals the abstract digest of exactly the bytes of the file under the selected
algorithm, so two runs over the same bytes with the same configured algorithm always
return the same hexadecimal string. -/
theorem C7_deterministic (hexdigest : HashAlg → List Nat → String) (code : String)
    (st1 st2 : List Nat) (contents : Option (List Nat)) (bs : List Nat) :
    hashFile hexdigest code st1 contents = hashFile hexdigest code st2 contents
      ∧ hashFile hexdigest code st1 (some bs)
          = Except.ok (hexdigest (selectAlg code) bs) :=
  ⟨rfl, hashFile_some hexdigest code st1 bs⟩

/-- C8: a filename that starts with a registered entry but contains no occurrence of
the entry followed by a space is still a match (startswith semantics): the file is
moved into the directory of that entry and, the deletion pattern being absent, the
destination name is the original filename unchanged.  The hypotheses place the
matching entry anywhere in the registry with no other matching entry. -/
theorem C8_startswith_match (g : Globals) (pre : List String) (b : String)
    (post : List String) (file : String) (s : St) (bs : List Nat)
    (hpre : ∀ q ∈ pre, startswith file q = false)
    (hb : startswith file b = true)
    (hocc : containsSub file.data (b ++ " ").data = false)
    (hpost : ∀ q ∈ post, startswith file q = false)
    (hsrc : lookupFS s.fs (g.currentPath, file) = some bs) :
    destName b file = file
      ∧ ∃ s2, processPrefixes g file (pre ++ b :: post) s = Except.ok s2
          ∧ lookupFS s2.fs (b, file) = some bs := by
  have hdn : destName b file = file := destName_no_occur b file hocc
  refine ⟨hdn, stepState g b file bs s, ?_, ?_⟩
  · rw [processPrefixes_skip g file pre (b :: post) s hpre,
      processPrefixes_cons_match g file b post s bs hb hsrc,
      processPrefixes_no_match g file post (stepState g b file bs s) hpost]
  · rw [stepState_fs, hdn, lookupFS_writeFS_self]

theorem C8_witness :
    (∀ q ∈ (["zz"] : List String), startswith ("prefixed.txt") q = false)
      ∧ startswith ("prefixed.txt") ("pre") = true
      ∧ containsSub ("prefixed.txt").data (("pre") ++ " ").data = false
      ∧ lookupFS sC8.fs (gC8.currentPath, ("prefixed.txt")) = some [7]
      ∧ (destName ("pre") ("prefixed.txt") = ("prefixed.txt")
          ∧ ∃ s2, processPrefixes gC8 ("prefixed.txt") (["zz"] ++ ("pre") :: []) sC8
                = Except.ok s2
              ∧ lookupFS s2.fs (("pre"), ("prefixed.txt")) = some [7]) :=
  ⟨by decide, by decide, by decide, by decide,
    C8_startswith_match gC8 ["zz"] ("pre") [] ("prefixed.txt") sC8 [7]
      (by decide) (by decide) (by decide) (by decide) (by decide)⟩

/-- C9: counterexample.  The claim says a file whose name starts with no registered
entry is left untouched by every cycle, with no ledger entry created for it.  When a
registered entry equals the watch directory name, a matching sibling is moved back
into the watch directory: here "Images x" is moved to destination ("Images", "x"),
silently overwriting the unmatched file "x" (content [1] becomes [2]) and recording a
ledger entry under the key naming that very directory and filename. -/
theorem C9_counterexample :
    mainCycle gC9 ["Images"] sC9 = Except.ok sC9out
      ∧ startswith ("x") ("Images") = false
      ∧ lookupFS sC9.fs (("Images"), ("x")) = some [1]
      ∧ lookupFS sC9out.fs (("Images"), ("x")) = some [2]
      ∧ dictLookup sC9out.hashStore ("Images | x") = some ("H") :=
  ⟨rfl, rfl, rfl, rfl, rfl⟩

/-- C9 amended: provided no registered entry equals the watch directory name (so no
move ever writes back into the watch directory), a file whose name starts with no
registered entry keeps its watch-directory entry unchanged, with the same content,
across the whole run: it is never moved, renamed, or overwritten, whether the run
ends normally or raises. -/
theorem C9_amended (g : Globals) (registered : List String) (schedule : List Config)
    (s : St) (f0 : String)
    (hcp : ∀ b ∈ registered, b ≠ g.currentPath)
    (hm : ∀ b ∈ registered, startswith f0 b = false) :
    lookupFS (resultSt (runLoop g registered schedule s)).fs (g.currentPath, f0)
      = lookupFS s.fs (g.currentPath, f0) :=
  runLoop_preserves g f0 registered hcp hm schedule s

theorem C9_amended_witness :
    (∀ b ∈ regC9w, b ≠ gC9.currentPath)
      ∧ (∀ b ∈ regC9w, startswith ("x") b = false)
      ∧ lookupFS (resultSt (runLoop gC9 regC9w schedC9w sC9w)).fs (gC9.currentPath, ("x"))
          = lookupFS sC9w.fs (gC9.currentPath, ("x")) :=
  ⟨by decide, by decide,
    C9_amended gC9 regC9w schedC9w sC9w ("x") (by decide) (by decide)⟩

/-- C10: when the startup configuration persists an isRunning value that is not the
exact string "true" (here the capitalized "True"), the process performs no work
beyond bootstrapping absent resources: the whole run returns the bootstrapped state
unchanged, so no directory is created or listed, no file is moved or hashed, and the
registered entries are never consulted. -/
theorem C10_stopped (hexdigest : HashAlg → List Nat → String) (schedule : List Config)
    (p0 : ProgSt) (c : Config)
    (hc : (bootstrap p0).configFile = some c)
    (hr : c.isRunning ≠ ("true")) :
    runProgram hexdigest schedule p0 = Except.ok (bootstrap p0) := by
  simp only [runProgram]
  rw [hc]
  simp only [Option.getD_some]
  rw [if_neg hr]

theorem C10_stopped_witness :
    (bootstrap pC10).configFile = some cC10
      ∧ cC10.isRunning ≠ ("true")
      ∧ runProgram (fun _ _ => "") [] pC10 = Except.ok (bootstrap pC10) :=
  ⟨by decide, by decide,
    C10_stopped (fun _ _ => "") [] pC10 cC10 (by decide) (by decide)⟩

end FileOrg
